import Mathlib

/-!
Verification of the diagnostic reasoning engine of the AI-Medical-Diagnosis-System
repository: a shallow embedding of the model-building, matching, special-case and
audit code of `bayes_utils.py`, `neo4j_utils.py`, `main.py` and `settings.py`,
with theorems settling the specified properties.  Probabilities are embedded as
rationals; the Neo4j graph is embedded as explicit finite data (association lists);
Cypher queries are embedded by their documented set semantics.
-/

/- ------------------------ settings.py ------------------------ -/

/-- `MIN_PROB` from settings.py (default 0.01). -/
def MIN_PROB : ℚ := 1 / 100

/-- `UNUSUAL_THRESH` from settings.py (default 0.15). -/
def UNUSUAL_THRESH : ℚ := 15 / 100

/- ------------------- symptom-name normalization ------------------- -/

/-- Python `s.strip()`: drop leading and trailing whitespace. -/
def pyStrip (s : String) : String :=
  String.mk (((s.data.dropWhile Char.isWhitespace).reverse.dropWhile Char.isWhitespace).reverse)

/-- Helper for Python `str.title()`: the Bool flag records whether the previous
character was alphabetic. -/
def pyTitleAux : Bool → List Char → List Char
  | _, [] => []
  | prevAlpha, c :: cs =>
    if c.isAlpha then
      (if prevAlpha then c.toLower else c.toUpper) :: pyTitleAux true cs
    else
      c :: pyTitleAux false cs

/-- Python `s.title()`: uppercase the first letter of each alphabetic run,
lowercase the rest. -/
def pyTitle (s : String) : String := String.mk (pyTitleAux false s.data)

/-- Python `s.strip().title()`, the normalization applied throughout the code. -/
def pyNorm (s : String) : String := pyTitle (pyStrip s)

/-- `[s.strip().title() for s in symptoms if s.strip()]` — the normalized input
symptom list used by `diseases_by_symptoms`, `_sym_key` and `main.diagnose_patient`. -/
def normList (symptoms : List String) : List String :=
  (symptoms.filter (fun s => pyStrip s != "")).map pyNorm

/- ------------------- neo4j_utils.py: special-case key ------------------- -/

/-- Lexicographic order on character lists by code point, as Python compares
strings. -/
def lexLe : List Char → List Char → Bool
  | [], _ => true
  | _ :: _, [] => false
  | a :: l, b :: m =>
    if a.toNat < b.toNat then true
    else if b.toNat < a.toNat then false
    else lexLe l m

/-- Python string comparison `a <= b` (code-point lexicographic order). -/
def strLe (a b : String) : Bool := lexLe a.data b.data

/-- `_sym_key` from neo4j_utils.py:
`"|".join(sorted({s.strip().title() for s in symptoms if s.strip()}))`.
The set comprehension is embedded as `dedup`, `sorted` as insertion sort by
Python's string order. -/
def _sym_key (symptoms : List String) : String :=
  String.intercalate "|"
    (List.insertionSort (fun a b : String => strLe a b = true) (normList symptoms).dedup)

/- ------------------- neo4j_utils.py: matching queries ------------------- -/

/-- Number of distinct recorded symptoms of a disease (or special-case bundle)
that occur in the (normalized) input list: the Cypher
`collect(DISTINCT s.name)` over `(x)-[:HAS_SYMPTOM]->(s)` with
`s.name IN $symptoms`, measured by `size(...)`. -/
def overlapCount (sympts : List String) (recorded : List String) : ℕ :=
  ((recorded.filter (fun s => decide (s ∈ sympts))).dedup).length

/-- `diseases_by_symptoms` from neo4j_utils.py.  The knowledge graph is embedded
as an association list of `(disease name, recorded symptom names)` pairs; the
Cypher query keeps a disease when the number of its distinct recorded symptoms
found in the normalized input reaches `needed`, where
`needed = len(sympts) if min_matches is None else max(1, min_matches)`. -/
def diseases_by_symptoms (graph : List (String × List String)) (symptoms : List String)
    (min_matches : Option ℤ) : List String :=
  let sympts := normList symptoms
  if sympts.isEmpty then []
  else
    let needed : ℤ :=
      match min_matches with
      | none => (sympts.length : ℤ)
      | some m => max 1 m
    (graph.filter (fun ds => decide (needed ≤ (overlapCount sympts ds.2 : ℤ)))).map Prod.fst

/- ------------------- neo4j_utils.py: special-case registry ------------------- -/

/-- A `SpecialCase` node: symptom list, first-seen / last-seen timestamps,
hit count and patient list, as set by the upsert Cypher query. -/
structure SpecialCase where
  symptoms : List String
  first_seen : ℕ
  last_seen : Option ℕ
  hits : ℕ
  patients : List String
deriving DecidableEq

/-- `upsert_special_case_with_patient` from neo4j_utils.py.  The registry is
embedded as a map from `sym_key` to the stored node; the `MERGE ... ON CREATE
... ON MATCH ...` query creates the bundle with `hits = 1`, `first_seen = ts`
and a singleton patient list when the key is absent, and otherwise increments
`hits`, sets `last_seen` and appends the patient only when not already a
member. -/
def upsert_special_case_with_patient (st : String → Option SpecialCase)
    (symptoms : List String) (patient : String) (ts : ℕ) : String → Option SpecialCase :=
  fun k =>
    if k = _sym_key symptoms then
      match st (_sym_key symptoms) with
      | none =>
          some { symptoms := (normList symptoms).dedup, first_seen := ts, last_seen := none,
                 hits := 1, patients := [patient] }
      | some c =>
          some { symptoms := c.symptoms, first_seen := c.first_seen, last_seen := some ts,
                 hits := c.hits + 1,
                 patients := if patient ∈ c.patients then c.patients
                             else c.patients ++ [patient] }
    else st k

/-- `n` successive upserts of the same symptom list, alternating two patient
names (call 1 uses `p1`, call 2 uses `p2`, call 3 uses `p1`, ...). -/
def altUpserts (st : String → Option SpecialCase) (syms : List String) (p1 p2 : String)
    (ts : ℕ) : ℕ → (String → Option SpecialCase)
  | 0 => st
  | n + 1 =>
      upsert_special_case_with_patient (altUpserts st syms p1 p2 ts n) syms
        (if n % 2 = 0 then p1 else p2) ts

/-- Python `int(q)` for a rational: truncation toward zero. -/
def pyInt (q : ℚ) : ℤ := if 0 ≤ q then ⌊q⌋ else ⌈q⌉

/-- `find_similar_special_cases` from neo4j_utils.py.  The registry is embedded
as a list of `(sym_key, stored symptom list)` pairs; the query keeps bundles
whose distinct matched symptom count reaches
`max(1, int(len(sympts) * similarity_threshold))` and orders them by
descending matched count (`ORDER BY size(matched_symptoms) DESC`). -/
def find_similar_special_cases (registry : List (String × List String))
    (symptoms : List String) (similarity_threshold : ℚ) : List (String × List String) :=
  let sympts := (normList symptoms).dedup
  let min_matches : ℤ := max 1 (pyInt ((sympts.length : ℚ) * similarity_threshold))
  List.insertionSort (fun c c' => overlapCount sympts c'.2 ≤ overlapCount sympts c.2)
    (registry.filter (fun c => decide (min_matches ≤ (overlapCount sympts c.2 : ℤ))))

/-- `find_unknown_symptoms` from neo4j_utils.py:
`[s for s in symptoms if s not in known]`. -/
def find_unknown_symptoms (known : List String) (symptoms : List String) : List String :=
  symptoms.filter (fun s => decide (s ∉ known))

/- ------------------- bayes_utils.py: unusual-case policy ------------------- -/

/-- `is_unusual` from bayes_utils.py: true when every disease probability in the
result mapping is strictly below `UNUSUAL_THRESH`. -/
def is_unusual (prob_dict : List (String × ℚ)) : Bool :=
  prob_dict.all (fun p => decide (p.2 < UNUSUAL_THRESH))

/- ------------------- diagnosis flow effects ------------------- -/

/-- Observable side effects of one diagnosis attempt: a special-case registry
upsert (with its optional patient name), an audit event with its action
string, and a recorded diagnosis. -/
inductive Eff : Type
  | upsert : List String → Option String → Eff
  | audit : String → Eff
  | diagRec : String → Eff
deriving DecidableEq

/-- Whether an effect is a special-case registry upsert. -/
def isUpsert : Eff → Bool
  | Eff.upsert _ _ => true
  | _ => false

/-- Number of special-case registry upserts in an effect trace. -/
def countUpserts (l : List Eff) : ℕ := (l.filter isUpsert).length

/-- Number of audit events with the given action string in an effect trace. -/
def countAudit (a : String) (l : List Eff) : ℕ :=
  (l.filter (fun e => decide (e = Eff.audit a))).length

/- ------------------- bayes_utils.py: build_model CPTs ------------------- -/

/-- Evidence bit pattern of combination `i` over `k` symptoms:
`[(i >> j) & 1 for j in reversed(range(k))]`. -/
def bitsOf (k i : ℕ) : List ℕ := ((List.range k).reverse).map (fun j => (i >>> j) &&& 1)

/-- Disease-level base probability:
`probs.get(dis, {}).get("base_prob", MIN_PROB)`.  The probability override
table is embedded as a function from disease and key to an optional value. -/
def basePTrue (probs : String → String → Option ℚ) (dis : String) : ℚ :=
  (probs dis "base_prob").getD MIN_PROB

/-- Per-symptom override probability: `probs.get(dis, {}).get(sym, 0.8)`. -/
def symProb (probs : String → String → Option ℚ) (dis sym : String) : ℚ :=
  (probs dis sym).getD (8 / 10)

/-- The true-branch probability of CPT row `i` for a disease: starting from the
base probability, raise to the maximum with each present symptom's override
probability, as in the `for b, sym in zip(bits, syms)` loop of `build_model`. -/
def pTrueRow (probs : String → String → Option ℚ) (dis : String) (syms : List String)
    (i : ℕ) : ℚ :=
  ((bitsOf syms.length i).zip syms).foldl
    (fun p bs => if bs.1 = 1 then max p (symProb probs dis bs.2) else p)
    (basePTrue probs dis)

/-- `row_true` built by `build_model` for one disease: one entry per
present/absent combination `i in range(2 ** len(syms))`. -/
def row_true (probs : String → String → Option ℚ) (dis : String) (syms : List String) :
    List ℚ :=
  (List.range (2 ^ syms.length)).map (pTrueRow probs dis syms)

/-- `row_false` built by `build_model`: `row_false.append(1 - p_true)`. -/
def row_false (probs : String → String → Option ℚ) (dis : String) (syms : List String) :
    List ℚ :=
  (List.range (2 ^ syms.length)).map (fun i => 1 - pTrueRow probs dis syms i)

/-- The symptoms marked present in combination `i` (those whose bit is 1). -/
def presentSyms (syms : List String) (i : ℕ) : List String :=
  (((bitsOf syms.length i).zip syms).filter (fun bs => decide (bs.1 = 1))).map Prod.snd

/-- The claimed row probability: the maximum of the disease's base probability
and the override probabilities of the symptoms present in combination `i`. -/
def specTrueProb (probs : String → String → Option ℚ) (dis : String) (syms : List String)
    (i : ℕ) : ℚ :=
  ((presentSyms syms i).map (symProb probs dis)).foldl max (basePTrue probs dis)

/- ------------------- bayes_utils.py: inference loop ------------------- -/

/-- The `for disease in diseases` inference loop of `diagnose_patient`
(bayes_utils.py): each requested disease is posed as a query variable against
the compiled model.  `pgmpy`'s `VariableElimination.query` raises when the
variable is not in the model, which aborts the loop; a successful query yields
the posterior `post d`.  The loop either completes with the full result mapping
or fails with the first missing disease. -/
def inferLoop (modelVars : List String) (post : String → ℚ) :
    List String → Except String (List (String × ℚ))
  | [] => Except.ok []
  | d :: rest =>
    if d ∈ modelVars then
      match inferLoop modelVars post rest with
      | Except.ok r => Except.ok ((d, post d) :: r)
      | Except.error e => Except.error e
    else Except.error d

/-- The write effects of `bayes_utils.diagnose_patient` after the match step,
as a function of the patient, the normalized symptoms, the compiled model's
variables with their posteriors, and the disease list returned by the match
step.  The preceding steps (special-case lookup, `diseases_by_symptoms`,
`build_model`) perform no writes.  The inference loop either raises — the
attempt aborts with no write effects — or completes with the result mapping
`result`; then the unusual branch performs `upsert_special_case(syms)` (a
patientless upsert, which itself audits `UPSERT_SPECIAL_CASE`) and audits
`UNUSUAL_CASE` exactly when `is_unusual(result)`, and a best-guess diagnosis
is recorded (auditing `CREATE_DIAGNOSIS`) exactly when `result` is
non-empty. -/
def diagnose_patient_effects (person : String) (syms : List String)
    (modelVars : List String) (post : String → ℚ) (diseases : List String) :
    Except String (List Eff) :=
  match inferLoop modelVars post diseases with
  | Except.error e => Except.error e
  | Except.ok result =>
      Except.ok
        ((if is_unusual result then
            [Eff.upsert syms none, Eff.audit "UPSERT_SPECIAL_CASE", Eff.audit "UNUSUAL_CASE"]
          else [])
          ++ (if result.isEmpty then []
              else [Eff.diagRec person, Eff.audit "CREATE_DIAGNOSIS"]))

/-- The write effects `main.diagnose_patient` performs before it raises.  The
`diagnose` that main.py calls at `probs = diagnose(syms)` is re-exported by
bayes_utils from `torch.onnx._internal.diagnostics` (bayes_utils.py line 17;
bayes_utils defines no `diagnose` of its own), and calling that function as
`diagnose(syms)` raises `TypeError`, so everything after that line — in
particular main.py's copy of the unusual-case branch (lines 147-152) — is
unreachable.  The only write effect of such an attempt is the
unknown-symptom upsert of main.py line 72 (with its audit event), performed
when the input contains symptoms outside the known vocabulary. -/
def main_diagnose_effects_before_raise (known : List String) (person : String)
    (rawSyms : List String) : List Eff :=
  let syms := normList rawSyms
  let unknown := find_unknown_symptoms known syms
  if unknown.isEmpty then []
  else [Eff.upsert syms (some person), Eff.audit "UPSERT_SPECIAL_CASE_WITH_PATIENT"]

/- ------------------- neo4j_utils.py: _run / log_audit ------------------- -/

/-- Outcome of executing a Python call: normal return or a raised exception. -/
inductive Res : Type
  | ret : Res
  | exc : Res
deriving DecidableEq

/-- Combined execution of the mutually recursive `_run` / `log_audit` pair of
neo4j_utils.py, with an explicit recursion budget `fuel` (Python's recursion
limit) and a store whose write attempt number `k` succeeds iff `store k`.
`tag = true` executes `_run`: if the write succeeds it returns, otherwise its
`except` handler calls `log_audit("QUERY_ERROR", ...)` and forwards its
outcome.  `tag = false` executes `log_audit`: it tries `_run` on the audit
write; if that raises, its `except` handler calls `_run` once more (the
`AuditError` write) outside any try, so a second raise propagates.  A call at
`fuel = 0` models exceeding the recursion limit (`RecursionError`).  The
returned number is the next unused write-attempt index. -/
def auditMachine : ℕ → Bool → (ℕ → Bool) → ℕ → Res × ℕ
  | 0, _, _, k => (Res.exc, k)
  | fuel + 1, tag, store, k =>
    if tag then
      if store k then (Res.ret, k + 1)
      else auditMachine fuel false store (k + 1)
    else
      match auditMachine fuel true store k with
      | (Res.ret, n) => (Res.ret, n)
      | (Res.exc, n) => auditMachine fuel true store n

/-- `_run` from neo4j_utils.py (see `auditMachine`). -/
def runF (fuel : ℕ) (store : ℕ → Bool) (k : ℕ) : Res × ℕ :=
  auditMachine fuel true store k

/-- `log_audit` from neo4j_utils.py (see `auditMachine`). -/
def logAuditF (fuel : ℕ) (store : ℕ → Bool) (k : ℕ) : Res × ℕ :=
  auditMachine fuel false store k

/-- An originating operation that has already computed its result `v` and then
emits an audit event: if `log_audit` returns, the operation's result is `v`;
if `log_audit` raises, the operation's surrounding `except` handler swallows
the exception and the caller observes no result. -/
def opWithAudit {α : Type} (fuel : ℕ) (store : ℕ → Bool) (k : ℕ) (v : α) : Option α × ℕ :=
  match logAuditF fuel store k with
  | (Res.ret, n) => (some v, n)
  | (Res.exc, n) => (none, n)

/- ------------------- helper lemmas: the string order ------------------- -/

theorem lexLe_total : ∀ l m : List Char, lexLe l m = true ∨ lexLe m l = true := by
  intro l
  induction l with
  | nil => intro m; left; rfl
  | cons a l ih =>
    intro m
    cases m with
    | nil => right; rfl
    | cons b m =>
      by_cases h1 : a.toNat < b.toNat
      · left; simp [lexLe, h1]
      · by_cases h2 : b.toNat < a.toNat
        · right; simp [lexLe, h2]
        · rcases ih m with h | h
          · left; simp [lexLe, h1, h2, h]
          · right; simp [lexLe, h1, h2, h]

theorem lexLe_trans : ∀ l m n : List Char,
    lexLe l m = true → lexLe m n = true → lexLe l n = true := by
  intro l
  induction l with
  | nil => intro m n _ _; rfl
  | cons a l ih =>
    intro m n h1 h2
    cases m with
    | nil => simp [lexLe] at h1
    | cons b m =>
      cases n with
      | nil => simp [lexLe] at h2
      | cons c n =>
        simp only [lexLe] at h1 h2 ⊢
        by_cases hab : a.toNat < b.toNat
        · by_cases hbc : b.toNat < c.toNat
          · simp [Nat.lt_trans hab hbc]
          · by_cases hcb : c.toNat < b.toNat
            · simp [hbc, hcb] at h2
            · have hbc' : b.toNat = c.toNat :=
                Nat.le_antisymm (Nat.not_lt.mp hcb) (Nat.not_lt.mp hbc)
              simp [hbc' ▸ hab]
        · by_cases hba : b.toNat < a.toNat
          · simp [hab, hba] at h1
          · have hab' : a.toNat = b.toNat :=
              Nat.le_antisymm (Nat.not_lt.mp hba) (Nat.not_lt.mp hab)
            simp only [hab, hba, if_false, if_neg] at h1
            by_cases hbc : b.toNat < c.toNat
            · simp [hab' ▸ hbc]
            · by_cases hcb : c.toNat < b.toNat
              · simp [hbc, hcb] at h2
              · have hbc' : b.toNat = c.toNat :=
                  Nat.le_antisymm (Nat.not_lt.mp hcb) (Nat.not_lt.mp hbc)
                have hac : ¬ a.toNat < c.toNat := by
                  rw [hab', hbc']; exact Nat.lt_irrefl _
                have hca : ¬ c.toNat < a.toNat := by
                  rw [hab', hbc']; exact Nat.lt_irrefl _
                simp only [hbc, hcb, if_false, if_neg] at h2
                simp [hac, hca, ih m n h1 h2]

theorem char_eq_of_toNat_eq {a b : Char} (h : a.toNat = b.toNat) : a = b :=
  Char.eq_of_val_eq (UInt32.toNat.inj h)

theorem lexLe_antisymm : ∀ l m : List Char,
    lexLe l m = true → lexLe m l = true → l = m := by
  intro l
  induction l with
  | nil =>
    intro m _ h2
    cases m with
    | nil => rfl
    | cons b m => simp [lexLe] at h2
  | cons a l ih =>
    intro m h1 h2
    cases m with
    | nil => simp [lexLe] at h1
    | cons b m =>
      simp only [lexLe] at h1 h2
      by_cases hab : a.toNat < b.toNat
      · simp [hab, Nat.lt_asymm hab] at h2
      · by_cases hba : b.toNat < a.toNat
        · simp [hab, hba] at h1
        · have : a = b :=
            char_eq_of_toNat_eq (Nat.le_antisymm (Nat.not_lt.mp hba) (Nat.not_lt.mp hab))
          subst this
          simp only [hab, if_neg] at h1 h2
          rw [ih m h1 h2]

theorem strLe_total : ∀ a b : String, strLe a b = true ∨ strLe b a = true :=
  fun a b => lexLe_total a.data b.data

theorem strLe_trans : ∀ a b c : String, strLe a b = true → strLe b c = true → strLe a c = true :=
  fun a b c h1 h2 => lexLe_trans a.data b.data c.data h1 h2

theorem strLe_antisymm : ∀ a b : String, strLe a b = true → strLe b a = true → a = b := by
  intro a b h1 h2
  cases a with
  | mk la =>
    cases b with
    | mk lb => exact congrArg String.mk (lexLe_antisymm la lb h1 h2)

/-- The sorted, deduplicated symptom list computed by `_sym_key` is a canonical
form: two inputs with the same normalized symptom set produce the same key. -/
theorem sym_key_eq_of_toFinset_eq (l1 l2 : List String)
    (h : (normList l1).toFinset = (normList l2).toFinset) : _sym_key l1 = _sym_key l2 := by
  haveI : IsTotal String (fun a b => strLe a b = true) := ⟨strLe_total⟩
  haveI : IsTrans String (fun a b => strLe a b = true) := ⟨strLe_trans⟩
  haveI : IsAntisymm String (fun a b => strLe a b = true) := ⟨strLe_antisymm⟩
  unfold _sym_key
  congr 1
  apply List.eq_of_perm_of_sorted (r := fun a b => strLe a b = true)
  · exact List.Perm.trans (List.perm_insertionSort _ _)
      (List.Perm.trans (List.toFinset_eq_iff_perm_dedup.mp h)
        (List.perm_insertionSort _ _).symm)
  · exact List.sorted_insertionSort _ _
  · exact List.sorted_insertionSort _ _

/- ------------------- helper lemmas: CPT rows ------------------- -/

theorem foldl_max_filter (f : String → ℚ) :
    ∀ (l : List (ℕ × String)) (a : ℚ),
      l.foldl (fun p bs => if bs.1 = 1 then max p (f bs.2) else p) a =
        (((l.filter (fun bs => decide (bs.1 = 1))).map Prod.snd).map f).foldl max a := by
  intro l
  induction l with
  | nil => intro a; rfl
  | cons hd tl ih =>
    intro a
    by_cases h : hd.1 = 1
    · simp [List.foldl_cons, h, List.filter_cons, ih]
    · simp [List.foldl_cons, h, List.filter_cons, ih]

theorem getD_map_range {α : Type} (f : ℕ → α) (d : α) (n i : ℕ) (h : i < n) :
    ((List.range n).map f).getD i d = f i := by
  simp [List.getD_eq_getElem?_getD, List.getElem?_map, List.getElem?_range h]

/- ------------------- helper lemmas: matching queries ------------------- -/

theorem mem_dbs_some (graph : List (String × List String)) (S : List String) (m : ℤ)
    (D : String) :
    D ∈ diseases_by_symptoms graph S (some m) ↔
      normList S ≠ [] ∧
        ∃ syms, (D, syms) ∈ graph ∧ max 1 m ≤ (overlapCount (normList S) syms : ℤ) := by
  simp only [diseases_by_symptoms]
  by_cases h : (normList S).isEmpty
  · rw [if_pos h]
    simp [List.isEmpty_iff.mp h]
  · rw [if_neg h]
    rw [List.isEmpty_iff] at h
    simp only [List.mem_map, List.mem_filter, decide_eq_true_eq]
    constructor
    · rintro ⟨⟨d, syms⟩, ⟨hg, hc⟩, rfl⟩
      exact ⟨h, syms, hg, hc⟩
    · rintro ⟨-, syms, hg, hc⟩
      exact ⟨(D, syms), ⟨hg, hc⟩, rfl⟩

theorem mem_dbs_none (graph : List (String × List String)) (S : List String) (D : String) :
    D ∈ diseases_by_symptoms graph S none ↔
      normList S ≠ [] ∧
        ∃ syms, (D, syms) ∈ graph ∧
          ((normList S).length : ℤ) ≤ (overlapCount (normList S) syms : ℤ) := by
  simp only [diseases_by_symptoms]
  by_cases h : (normList S).isEmpty
  · rw [if_pos h]
    simp [List.isEmpty_iff.mp h]
  · rw [if_neg h]
    rw [List.isEmpty_iff] at h
    simp only [List.mem_map, List.mem_filter, decide_eq_true_eq]
    constructor
    · rintro ⟨⟨d, syms⟩, ⟨hg, hc⟩, rfl⟩
      exact ⟨h, syms, hg, hc⟩
    · rintro ⟨-, syms, hg, hc⟩
      exact ⟨(D, syms), ⟨hg, hc⟩, rfl⟩

theorem overlapCount_nil (recorded : List String) : overlapCount [] recorded = 0 := by
  simp [overlapCount]

theorem overlap_pos_iff (sympts syms : List String) :
    1 ≤ overlapCount sympts syms ↔ ∃ s ∈ syms, s ∈ sympts := by
  simp only [overlapCount]
  constructor
  · intro h
    obtain ⟨x, hx⟩ := List.length_pos_iff_exists_mem.mp h
    rw [List.mem_dedup, List.mem_filter, decide_eq_true_eq] at hx
    exact ⟨x, hx.1, hx.2⟩
  · rintro ⟨s, hs1, hs2⟩
    apply List.length_pos_iff_exists_mem.mpr
    exact ⟨s, by simp [List.mem_dedup, List.mem_filter, hs1, hs2]⟩

theorem overlap_ge_length_iff (sympts syms : List String) (hnd : sympts.Nodup) :
    sympts.length ≤ overlapCount sympts syms ↔ ∀ s ∈ sympts, s ∈ syms := by
  simp only [overlapCount]
  have hFnd : ((syms.filter (fun s => decide (s ∈ sympts))).dedup).Nodup := List.nodup_dedup _
  have hFsub : ((syms.filter (fun s => decide (s ∈ sympts))).dedup).toFinset ⊆
      sympts.toFinset := by
    intro x hx
    rw [List.mem_toFinset] at hx ⊢
    rw [List.mem_dedup, List.mem_filter, decide_eq_true_eq] at hx
    exact hx.2
  have hFcard : ((syms.filter (fun s => decide (s ∈ sympts))).dedup).toFinset.card =
      ((syms.filter (fun s => decide (s ∈ sympts))).dedup).length :=
    List.toFinset_card_of_nodup hFnd
  have hScard : sympts.toFinset.card = sympts.length := List.toFinset_card_of_nodup hnd
  constructor
  · intro h s hs
    have hcard : sympts.toFinset.card ≤
        ((syms.filter (fun s => decide (s ∈ sympts))).dedup).toFinset.card := by omega
    have heq := Finset.eq_of_subset_of_card_le hFsub hcard
    have hsF : s ∈ ((syms.filter (fun s => decide (s ∈ sympts))).dedup).toFinset := by
      rw [heq]; exact List.mem_toFinset.mpr hs
    rw [List.mem_toFinset, List.mem_dedup, List.mem_filter] at hsF
    exact hsF.1
  · intro h
    have hsub2 : sympts.toFinset ⊆
        ((syms.filter (fun s => decide (s ∈ sympts))).dedup).toFinset := by
      intro x hx
      rw [List.mem_toFinset] at hx ⊢
      rw [List.mem_dedup, List.mem_filter, decide_eq_true_eq]
      exact ⟨h x hx, hx⟩
    have := Finset.card_le_card hsub2
    omega

/- ------------------- helper lemmas: special-case registry ------------------- -/

theorem altUpserts_spec (st : String → Option SpecialCase) (syms : List String)
    (p1 p2 : String) (ts : ℕ) (hne : p1 ≠ p2) (h0 : st (_sym_key syms) = none) :
    ∀ n, 1 ≤ n →
      altUpserts st syms p1 p2 ts n (_sym_key syms) =
        some { symptoms := (normList syms).dedup, first_seen := ts,
               last_seen := if n = 1 then none else some ts, hits := n,
               patients := if n = 1 then [p1] else [p1, p2] } := by
  intro n hn
  induction n, hn using Nat.le_induction with
  | base =>
    show upsert_special_case_with_patient st syms p1 ts (_sym_key syms) = _
    simp [upsert_special_case_with_patient, h0]
  | succ n hn ih =>
    have hn1 : ¬ (n + 1 = 1) := by omega
    show upsert_special_case_with_patient (altUpserts st syms p1 p2 ts n) syms
        (if n % 2 = 0 then p1 else p2) ts (_sym_key syms) = _
    simp only [upsert_special_case_with_patient, ih, if_pos rfl, hn1, if_false]
    by_cases h1 : n = 1
    · subst h1
      have hmod : ¬ ((1 : ℕ) % 2 = 0) := by decide
      simp [hmod, List.mem_singleton, Ne.symm hne]
    · simp only [h1, if_false]
      by_cases h2 : n % 2 = 0
      · simp [h2, List.mem_cons]
      · simp [h2, List.mem_cons]

/- ------------------- helper lemmas: similarity search ------------------- -/

theorem mem_find_similar (registry : List (String × List String)) (S : List String)
    (t : ℚ) (c : String × List String) :
    c ∈ find_similar_special_cases registry S t ↔
      c ∈ registry ∧
        max 1 (pyInt ((((normList S).dedup.length : ℚ)) * t)) ≤
          (overlapCount ((normList S).dedup) c.2 : ℤ) := by
  simp only [find_similar_special_cases]
  constructor
  · intro h
    have h2 := (List.perm_insertionSort _ _).mem_iff.mp h
    rw [List.mem_filter, decide_eq_true_eq] at h2
    exact h2
  · intro h
    apply (List.perm_insertionSort _ _).mem_iff.mpr
    rw [List.mem_filter, decide_eq_true_eq]
    exact h

theorem sorted_find_similar (registry : List (String × List String)) (S : List String)
    (t : ℚ) :
    (find_similar_special_cases registry S t).Sorted
      (fun c c' => overlapCount ((normList S).dedup) c'.2 ≤
        overlapCount ((normList S).dedup) c.2) := by
  haveI : IsTotal (String × List String)
      (fun c c' => overlapCount ((normList S).dedup) c'.2 ≤
        overlapCount ((normList S).dedup) c.2) :=
    ⟨fun a b => Nat.le_total _ _⟩
  haveI : IsTrans (String × List String)
      (fun c c' => overlapCount ((normList S).dedup) c'.2 ≤
        overlapCount ((normList S).dedup) c.2) :=
    ⟨fun a b c h1 h2 => Nat.le_trans h2 h1⟩
  exact List.sorted_insertionSort _ _

/- ------------------- helper lemmas: inference loop ------------------- -/

theorem inferLoop_ok (modelVars : List String) (post : String → ℚ) :
    ∀ ds : List String, (∀ d ∈ ds, d ∈ modelVars) →
      inferLoop modelVars post ds = Except.ok (ds.map fun d => (d, post d)) := by
  intro ds
  induction ds with
  | nil => intro _; rfl
  | cons hd tl ih =>
    intro h
    have h1 : hd ∈ modelVars := h hd (List.mem_cons_self hd tl)
    have h2 := ih (fun d hd2 => h d (List.mem_cons_of_mem _ hd2))
    simp [inferLoop, h1, h2]

theorem inferLoop_error (modelVars : List String) (post : String → ℚ) :
    ∀ (ds : List String) (d : String), d ∈ ds → d ∉ modelVars →
      ∃ e, inferLoop modelVars post ds = Except.error e := by
  intro ds
  induction ds with
  | nil => intro d h; cases h
  | cons hd tl ih =>
    intro d hmem hnot
    by_cases hhd : hd ∈ modelVars
    · have hd_ne : d ≠ hd := fun he => hnot (he ▸ hhd)
      have htl : d ∈ tl := by
        rcases List.mem_cons.mp hmem with h | h
        · exact absurd h hd_ne
        · exact h
      obtain ⟨e, he⟩ := ih d htl hnot
      exact ⟨e, by simp [inferLoop, hhd, he]⟩
    · exact ⟨hd, by simp [inferLoop, hhd]⟩

/- ------------------- helper lemmas: audit machine ------------------- -/

theorem auditMachine_succ (f : ℕ) (tag : Bool) (store : ℕ → Bool) (k : ℕ) :
    auditMachine (f + 1) tag store k =
      if tag then
        (if store k then (Res.ret, k + 1) else auditMachine f false store (k + 1))
      else
        (match auditMachine f true store k with
         | (Res.ret, n) => (Res.ret, n)
         | (Res.exc, n) => auditMachine f true store n) := rfl

theorem auditMachine_persistent_fail :
    ∀ (fuel : ℕ) (tag : Bool) (k : ℕ),
      (auditMachine fuel tag (fun _ => false) k).1 = Res.exc := by
  intro fuel
  induction fuel with
  | zero => intro tag k; rfl
  | succ f ih =>
    intro tag k
    rw [auditMachine_succ]
    cases tag with
    | true => simpa using ih false (k + 1)
    | false =>
      rcases hm : auditMachine f true (fun _ => false) k with ⟨r, n⟩
      have hr : r = Res.exc := by
        have := ih true k
        rw [hm] at this
        exact this
      subst hr
      simpa [hm] using ih true n

theorem auditMachine_run_recovery (store : ℕ → Bool) (fuel k : ℕ)
    (hk1 : store (k + 1) = true) (hf : 3 ≤ fuel) :
    (auditMachine fuel true store k).1 = Res.ret := by
  obtain ⟨j, rfl⟩ : ∃ j, fuel = j + 3 := ⟨fuel - 3, by omega⟩
  rw [show j + 3 = (j + 2) + 1 from rfl, auditMachine_succ]
  by_cases h0 : store k
  · simp [h0]
  · simp only [h0, if_true, if_false, Bool.false_eq_true]
    rw [show j + 2 = (j + 1) + 1 from rfl, auditMachine_succ]
    have hrun : auditMachine (j + 1) true store (k + 1) = (Res.ret, k + 2) := by
      rw [auditMachine_succ]
      simp [hk1]
    simp [hrun]

theorem logAuditF_recovery (store : ℕ → Bool) (fuel k : ℕ)
    (hk1 : store (k + 1) = true) (hf : 4 ≤ fuel) :
    (logAuditF fuel store k).1 = Res.ret := by
  obtain ⟨j, rfl⟩ : ∃ j, fuel = j + 4 := ⟨fuel - 4, by omega⟩
  show (auditMachine ((j + 3) + 1) false store k).1 = Res.ret
  rw [auditMachine_succ]
  rcases hm : auditMachine (j + 3) true store k with ⟨r, n⟩
  have hr : r = Res.ret := by
    have := auditMachine_run_recovery store (j + 3) k hk1 (by omega)
    rw [hm] at this
    exact this
  subst hr
  simp [hm]

/- ------------------------ claim theorems ------------------------ -/

/-- C1: for every disease with symptom set S, `build_model` constructs a CPT
with one row per present/absent combination of S (`2 ^ |S|` rows); the
true-branch probability of each row is the maximum of the disease's base
probability (override if present, else `MIN_PROB`) and, for each symptom
present in the combination, that symptom's override probability (0.8 by
default); the false-branch probability is exactly `1 -` the true-branch, so
both outcomes of every row sum to 1 exactly. -/
theorem C1_build_model_cpt :
    ∀ (probs : String → String → Option ℚ) (dis : String) (syms : List String),
      (row_true probs dis syms).length = 2 ^ syms.length ∧
      (row_false probs dis syms).length = 2 ^ syms.length ∧
      ∀ i, i < 2 ^ syms.length →
        (row_true probs dis syms).getD i 0 = specTrueProb probs dis syms i ∧
        (row_false probs dis syms).getD i 0 = 1 - (row_true probs dis syms).getD i 0 ∧
        (row_true probs dis syms).getD i 0 + (row_false probs dis syms).getD i 0 = 1 := by
  intro probs dis syms
  refine ⟨by simp [row_true], by simp [row_false], fun i hi => ?_⟩
  have h1 : (row_true probs dis syms).getD i 0 = pTrueRow probs dis syms i :=
    getD_map_range _ _ _ _ hi
  have h2 : (row_false probs dis syms).getD i 0 = 1 - pTrueRow probs dis syms i :=
    getD_map_range _ _ _ _ hi
  refine ⟨?_, by rw [h1, h2], by rw [h1, h2]; ring⟩
  rw [h1]
  unfold pTrueRow specTrueProb presentSyms
  exact foldl_max_filter _ _ _

/-- C1 witness: the CPT row facts evaluated for a one-symptom disease with an
empty override table, at row 1. -/
theorem C1_build_model_cpt_witness :
    1 < 2 ^ (["Fever"] : List String).length ∧
    ((row_true (fun _ _ => none) "Flu" ["Fever"]).getD 1 0 =
        specTrueProb (fun _ _ => none) "Flu" ["Fever"] 1 ∧
      (row_false (fun _ _ => none) "Flu" ["Fever"]).getD 1 0 =
        1 - (row_true (fun _ _ => none) "Flu" ["Fever"]).getD 1 0 ∧
      (row_true (fun _ _ => none) "Flu" ["Fever"]).getD 1 0 +
        (row_false (fun _ _ => none) "Flu" ["Fever"]).getD 1 0 = 1) :=
  ⟨by decide, (C1_build_model_cpt (fun _ _ => none) "Flu" ["Fever"]).2.2 1 (by decide)⟩

/-- C2 counterexample: with the graph `{Flu: [Fever]}` and input
`["Fever", "fever"]` (whose two entries normalize to the same symptom), every
input symptom normalizes into Flu's symptom set, yet `diseases_by_symptoms`
with `min_matches = None` returns nothing: the all-match branch compares the
distinct overlap count against the length of the normalized input list
including duplicates. -/
theorem C2_counterexample :
    diseases_by_symptoms [("Flu", ["Fever"])] ["Fever", "fever"] none = [] ∧
    pyNorm "Fever" = "Fever" ∧ pyNorm "fever" = "Fever" ∧
    ("Fever" : String) ∈ (["Fever"] : List String) := by
  refine ⟨by decide, by decide, by decide, by decide⟩

/-- C2 (amended): for `min_matches = m ≥ 1`, `diseases_by_symptoms` returns
exactly the diseases whose recorded symptom set shares at least `m` distinct
normalized symptoms with S.  For `min_matches = None` it returns exactly the
diseases whose distinct shared symptom count reaches the length of the
normalized input list; when that list has no duplicates this is exactly the
diseases whose symptom set contains every (nonempty) input symptom. -/
theorem C2_diseases_by_symptoms :
    ∀ (graph : List (String × List String)) (S : List String) (m : ℤ) (D : String),
      (1 ≤ m →
        (D ∈ diseases_by_symptoms graph S (some m) ↔
          ∃ syms, (D, syms) ∈ graph ∧ m ≤ (overlapCount (normList S) syms : ℤ)))
      ∧ ((normList S).Nodup →
        (D ∈ diseases_by_symptoms graph S none ↔
          normList S ≠ [] ∧
            ∃ syms, (D, syms) ∈ graph ∧ ∀ s ∈ normList S, s ∈ syms)) := by
  intro graph S m D
  constructor
  · intro hm
    rw [mem_dbs_some]
    have hmax : max 1 m = m := max_eq_right hm
    rw [hmax]
    constructor
    · rintro ⟨-, syms, hg, hc⟩
      exact ⟨syms, hg, hc⟩
    · rintro ⟨syms, hg, hc⟩
      refine ⟨?_, syms, hg, hc⟩
      intro hnil
      rw [hnil, overlapCount_nil] at hc
      omega
  · intro hnd
    rw [mem_dbs_none]
    constructor
    · rintro ⟨hne, syms, hg, hc⟩
      refine ⟨hne, syms, hg, ?_⟩
      rw [← overlap_ge_length_iff (normList S) syms hnd]
      exact_mod_cast hc
    · rintro ⟨hne, syms, hg, hsub⟩
      refine ⟨hne, syms, hg, ?_⟩
      exact_mod_cast (overlap_ge_length_iff (normList S) syms hnd).mpr hsub

/-- C2 witness: the amended characterization evaluated on the graph
`{Flu: [Fever, Cough]}` with input `["Fever"]` and `min_matches = 1`. -/
theorem C2_diseases_by_symptoms_witness :
    (1 : ℤ) ≤ 1 ∧
    ("Flu" ∈ diseases_by_symptoms [("Flu", ["Fever", "Cough"])] ["Fever"] (some 1) ↔
      ∃ syms, (("Flu", syms) ∈ [("Flu", ["Fever", "Cough"])]) ∧
        (1 : ℤ) ≤ (overlapCount (normList ["Fever"]) syms : ℤ)) :=
  ⟨by decide,
    (C2_diseases_by_symptoms [("Flu", ["Fever", "Cough"])] ["Fever"] 1 "Flu").1 (by decide)⟩

/-- C3 counterexample: with the graph `{Flu: [Fever, Cough]}` and input
`["Fever"]`, `match(S, null)` returns Flu even though Flu's full symptom set
is not a subset of S (`Cough ∉ S`): the code requires the input to be
contained in the disease's symptom set, not the reverse as claimed. -/
theorem C3_counterexample :
    diseases_by_symptoms [("Flu", ["Fever", "Cough"])] ["Fever"] none = ["Flu"] ∧
    ¬ (("Cough" : String) ∈ (["Fever"] : List String)) := by
  refine ⟨by decide, by decide⟩

/-- C3 (amended): `match(S, null)` returns D iff the normalized input is
nonempty and every normalized input symptom belongs to D's recorded symptom
set (input ⊆ disease set — the reverse of the claimed direction), stated for
duplicate-free normalized inputs; `match(S, 1)` returns D iff the
intersection of D's symptom set with the normalized S is non-empty, as
claimed. -/
theorem C3_match_modes :
    ∀ (graph : List (String × List String)) (S : List String) (D : String),
      ((normList S).Nodup →
        (D ∈ diseases_by_symptoms graph S none ↔
          normList S ≠ [] ∧
            ∃ syms, (D, syms) ∈ graph ∧ ∀ s ∈ normList S, s ∈ syms))
      ∧ (D ∈ diseases_by_symptoms graph S (some 1) ↔
          ∃ syms, (D, syms) ∈ graph ∧ ∃ s ∈ syms, s ∈ normList S) := by
  intro graph S D
  constructor
  · intro hnd
    exact (C2_diseases_by_symptoms graph S 1 D).2 hnd
  · rw [mem_dbs_some]
    have hmax : max 1 (1 : ℤ) = 1 := by norm_num
    rw [hmax]
    constructor
    · rintro ⟨-, syms, hg, hc⟩
      refine ⟨syms, hg, ?_⟩
      rw [← overlap_pos_iff (normList S) syms]
      exact_mod_cast hc
    · rintro ⟨syms, hg, hint⟩
      obtain ⟨s, hs1, hs2⟩ := hint
      refine ⟨List.ne_nil_of_mem hs2, syms, hg, ?_⟩
      exact_mod_cast (overlap_pos_iff (normList S) syms).mpr ⟨s, hs1, hs2⟩

/-- C4: `_sym_key` is a canonical (idempotent, order- and case-independent)
key: any two symptom lists with the same normalized symptom set — in
particular permutations, duplications, or case variants of one another — map
to the same key, and the concrete examples of the specification hold:
`_sym_key ["Cough","Fever"] = _sym_key ["fever","COUGH","Fever"] =
"Cough|Fever"`. -/
theorem C4_sym_key_canonical :
    (∀ l1 l2 : List String, (normList l1).toFinset = (normList l2).toFinset →
      _sym_key l1 = _sym_key l2)
    ∧ (∀ l1 l2 : List String, l1.Perm l2 → _sym_key l1 = _sym_key l2)
    ∧ (∀ l : List String, _sym_key (l ++ l) = _sym_key l)
    ∧ _sym_key ["Cough", "Fever"] = "Cough|Fever"
    ∧ _sym_key ["fever", "COUGH", "Fever"] = "Cough|Fever" := by
  refine ⟨sym_key_eq_of_toFinset_eq, ?_, ?_, by decide, by decide⟩
  · intro l1 l2 hp
    apply sym_key_eq_of_toFinset_eq
    apply List.toFinset_eq_of_perm
    exact (hp.filter _).map _
  · intro l
    apply sym_key_eq_of_toFinset_eq
    rw [normList, List.filter_append, List.map_append, List.toFinset_append]
    simp [normList]

/-- C4 witness: canonicity applied to a pair of concrete case-and-whitespace
variants of the same symptom set. -/
theorem C4_sym_key_canonical_witness :
    (normList ["Cough", "Fever"]).toFinset = (normList ["fever", "COUGH", "Fever"]).toFinset ∧
    _sym_key ["Cough", "Fever"] = _sym_key ["fever", "COUGH", "Fever"] :=
  ⟨by decide, C4_sym_key_canonical.1 ["Cough", "Fever"] ["fever", "COUGH", "Fever"] (by decide)⟩

/-- C5: special-case bundle state is monotone under upsert.  An upsert on an
absent key creates the bundle with hit count 1, `first_seen = now` and a
singleton patient list; every upsert on a present key increments the hit
count by exactly 1, updates `last_seen`, leaves `first_seen` unchanged, and
adds the patient name only if not already a member; and `N ≥ 2` upserts of
the same symptom set alternating two distinct patient names yield hit count
`N` and a patient set of size exactly 2. -/
theorem C5_upsert_monotone :
    ∀ (st : String → Option SpecialCase) (syms : List String) (p p1 p2 : String) (ts : ℕ),
      (st (_sym_key syms) = none →
        upsert_special_case_with_patient st syms p ts (_sym_key syms) =
          some { symptoms := (normList syms).dedup, first_seen := ts, last_seen := none,
                 hits := 1, patients := [p] })
      ∧ (∀ c, st (_sym_key syms) = some c →
          upsert_special_case_with_patient st syms p ts (_sym_key syms) =
            some { symptoms := c.symptoms, first_seen := c.first_seen, last_seen := some ts,
                   hits := c.hits + 1,
                   patients := if p ∈ c.patients then c.patients
                               else c.patients ++ [p] })
      ∧ (∀ N, 2 ≤ N → p1 ≠ p2 → st (_sym_key syms) = none →
          ∃ c, altUpserts st syms p1 p2 ts N (_sym_key syms) = some c ∧
            c.hits = N ∧ c.patients = [p1, p2] ∧ c.patients.length = 2 ∧
            c.first_seen = ts) := by
  intro st syms p p1 p2 ts
  refine ⟨?_, ?_, ?_⟩
  · intro h
    simp [upsert_special_case_with_patient, h]
  · intro c h
    simp [upsert_special_case_with_patient, h]
  · intro N hN hne h0
    have hspec := altUpserts_spec st syms p1 p2 ts hne h0 N (by omega)
    have hN1 : ¬ (N = 1) := by omega
    rw [hspec]
    exact ⟨_, rfl, by simp [hN1]⟩

/-- C5 witness: three alternating upserts from the empty registry yield hit
count 3 and exactly the two distinct patients. -/
theorem C5_upsert_monotone_witness :
    2 ≤ 3 ∧ ("Ann" : String) ≠ "Bob" ∧
    (∃ c, altUpserts (fun _ => none) ["Fever"] "Ann" "Bob" 7 3 (_sym_key ["Fever"]) = some c ∧
      c.hits = 3 ∧ c.patients = ["Ann", "Bob"] ∧ c.patients.length = 2 ∧
      c.first_seen = 7) :=
  ⟨by decide, by decide,
    (C5_upsert_monotone (fun _ => none) ["Fever"] "Ann" "Ann" "Bob" 7).2.2 3 (by decide)
      (by decide) rfl⟩

/-- C6 counterexample: with three distinct input symptoms and the default
threshold 0.5, the code's cutoff is `max(1, int(3 * 0.5)) = 1` (truncation),
not `ceil(3 * 0.5) = 2` as claimed: a bundle sharing only one symptom is
returned although its overlap is below the claimed ceiling. -/
theorem C6_counterexample :
    find_similar_special_cases [("A", ["Ache"])] ["Ache", "Burn", "Cramp"] (1 / 2) =
      [("A", ["Ache"])] ∧
    ((normList ["Ache", "Burn", "Cramp"]).dedup).length = 3 ∧
    overlapCount ((normList ["Ache", "Burn", "Cramp"]).dedup) ["Ache"] = 1 ∧
    ((overlapCount ((normList ["Ache", "Burn", "Cramp"]).dedup) ["Ache"] : ℤ) <
      ⌈((1 : ℚ) / 2) * (((normList ["Ache", "Burn", "Cramp"]).dedup).length : ℚ)⌉) := by
  have hsym : (normList ["Ache", "Burn", "Cramp"]).dedup = ["Ache", "Burn", "Cramp"] := by
    decide
  have hov : overlapCount ["Ache", "Burn", "Cramp"] ["Ache"] = 1 := by decide
  have hfloor : pyInt (((["Ache", "Burn", "Cramp"] : List String).length : ℚ) * (1 / 2)) = 1 := by
    rw [pyInt]
    norm_num
  refine ⟨?_, by decide, by rw [hsym]; exact hov, ?_⟩
  · simp only [find_similar_special_cases, hsym, hfloor, hov]
    norm_num [List.insertionSort, List.orderedInsert]
  · rw [hsym, hov]
    have : ((1 : ℤ) : ℚ) < ((1 : ℚ) / 2) * ((3 : ℕ) : ℚ) := by norm_num
    exact_mod_cast Int.lt_ceil.mpr (by push_cast; norm_num)

/-- C6 (amended): `find_similar_special_cases(S, t)` returns exactly the
bundles sharing at least `max(1, int(n * t))` distinct symptoms with the
normalized distinct input (where `n` is its size and `int` truncates toward
zero — the floor for non-negative values, not the ceiling), ordered by
descending overlap size. -/
theorem C6_find_similar :
    ∀ (registry : List (String × List String)) (S : List String) (t : ℚ),
      (∀ c, c ∈ find_similar_special_cases registry S t ↔
        c ∈ registry ∧
          max 1 (pyInt ((((normList S).dedup.length : ℚ)) * t)) ≤
            (overlapCount ((normList S).dedup) c.2 : ℤ))
      ∧ (find_similar_special_cases registry S t).Sorted
          (fun c c' => overlapCount ((normList S).dedup) c'.2 ≤
            overlapCount ((normList S).dedup) c.2) := by
  intro registry S t
  exact ⟨fun c => mem_find_similar registry S t c, sorted_find_similar registry S t⟩

/-- C6 witness: the amended characterization evaluated on a singleton
registry. -/
theorem C6_find_similar_witness :
    (("A", ["Ache"]) ∈ find_similar_special_cases [("A", ["Ache"])] ["Ache"] (1 / 2) ↔
      ("A", ["Ache"]) ∈ [("A", ["Ache"])] ∧
        max 1 (pyInt ((((normList ["Ache"]).dedup.length : ℚ)) * (1 / 2))) ≤
          (overlapCount ((normList ["Ache"]).dedup) (("A", ["Ache"]) : String × List String).2 : ℤ)) :=
  (C6_find_similar [("A", ["Ache"])] ["Ache"] (1 / 2)).1 ("A", ["Ache"])

/- ------------------- helper lemmas: effect counting ------------------- -/

theorem main_flow_before_raise_counts :
    ∀ (known : List String) (person : String) (rawSyms : List String),
      countAudit "UNUSUAL_CASE" (main_diagnose_effects_before_raise known person rawSyms) = 0
      ∧ countUpserts (main_diagnose_effects_before_raise known person rawSyms) ≤ 1 := by
  intro known person rawSyms
  cases h : (find_unknown_symptoms known (normList rawSyms)).isEmpty <;>
    exact ⟨by simp +decide [main_diagnose_effects_before_raise, countAudit, h],
           by simp +decide [main_diagnose_effects_before_raise, countUpserts, isUpsert, h]⟩

/-- C7: in the diagnosis flow of `bayes_utils.diagnose_patient` — the flow in
which the unusual-case policy is reachable (main.py's copy of the branch sits
after a call that raises, see `main_diagnose_effects_before_raise`) — an
attempt whose inference loop completes is flagged unusual iff every inferred
disease probability in the result mapping is strictly below `UNUSUAL_THRESH`;
when flagged, the attempt performs exactly one special-case registry upsert
and emits exactly one `UNUSUAL_CASE` audit event (and none of either when not
flagged), for every disease list returned by the match step — in particular
independently of whether it returned any disease names. -/
theorem C7_unusual_flow :
    ∀ (person : String) (syms : List String) (modelVars : List String)
      (post : String → ℚ) (diseases : List String) (result : List (String × ℚ)),
      inferLoop modelVars post diseases = Except.ok result →
        (is_unusual result = true ↔ ∀ pr ∈ result, pr.2 < UNUSUAL_THRESH)
        ∧ ∃ effects,
            diagnose_patient_effects person syms modelVars post diseases = Except.ok effects
            ∧ countUpserts effects = (if is_unusual result then 1 else 0)
            ∧ countAudit "UNUSUAL_CASE" effects = (if is_unusual result then 1 else 0) := by
  intro person syms modelVars post diseases result hok
  refine ⟨by simp [is_unusual, List.all_eq_true], ?_⟩
  refine ⟨(if is_unusual result then
      [Eff.upsert syms none, Eff.audit "UPSERT_SPECIAL_CASE", Eff.audit "UNUSUAL_CASE"]
    else [])
    ++ (if result.isEmpty then []
        else [Eff.diagRec person, Eff.audit "CREATE_DIAGNOSIS"]), ?_, ?_, ?_⟩
  · unfold diagnose_patient_effects
    rw [hok]
  · cases h2 : is_unusual result <;> cases h3 : result.isEmpty <;>
      simp +decide [countUpserts, isUpsert, h2, h3]
  · cases h2 : is_unusual result <;> cases h3 : result.isEmpty <;>
      simp +decide [countAudit, h2, h3]

/-- C7 witness: the flow facts evaluated for a concrete completed inference
with one disease. -/
theorem C7_unusual_flow_witness :
    inferLoop ["Flu"] (fun _ => (1 : ℚ) / 2) ["Flu"] = Except.ok [("Flu", (1 : ℚ) / 2)] ∧
    ((is_unusual [("Flu", (1 : ℚ) / 2)] = true ↔
        ∀ pr ∈ [("Flu", (1 : ℚ) / 2)], pr.2 < UNUSUAL_THRESH)
      ∧ ∃ effects,
          diagnose_patient_effects "Ann" ["Fever"] ["Flu"] (fun _ => (1 : ℚ) / 2) ["Flu"] =
            Except.ok effects
          ∧ countUpserts effects = (if is_unusual [("Flu", (1 : ℚ) / 2)] then 1 else 0)
          ∧ countAudit "UNUSUAL_CASE" effects =
              (if is_unusual [("Flu", (1 : ℚ) / 2)] then 1 else 0)) :=
  ⟨rfl, C7_unusual_flow "Ann" ["Fever"] ["Flu"] (fun _ => (1 : ℚ) / 2) ["Flu"]
    [("Flu", (1 : ℚ) / 2)] rfl⟩

/-- C8 counterexample: requesting a disease that is not a model variable makes
the inference loop fail the whole batch with an error at that disease — it is
not skipped, and no posteriors for the remaining diseases are returned. -/
theorem C8_counterexample :
    inferLoop ["Flu"] (fun _ => (1 : ℚ) / 2) ["Ghost", "Flu"] = Except.error "Ghost" ∧
    (Except.error "Ghost" : Except String (List (String × ℚ))) ≠
      Except.ok [("Flu", (1 : ℚ) / 2)] := by
  exact ⟨rfl, fun h => Except.noConfusion h⟩

/-- C8 (amended): when every requested disease is a variable of the compiled
model, the inference loop returns posteriors for all of them; but if any
requested disease is missing from the model, the loop raises and the whole
batch fails with an error — the missing disease is not skipped. -/
theorem C8_infer_loop :
    ∀ (modelVars : List String) (post : String → ℚ) (ds : List String),
      ((∀ d ∈ ds, d ∈ modelVars) →
        inferLoop modelVars post ds = Except.ok (ds.map fun d => (d, post d)))
      ∧ (∀ d ∈ ds, d ∉ modelVars → ∃ e, inferLoop modelVars post ds = Except.error e) := by
  intro modelVars post ds
  exact ⟨inferLoop_ok modelVars post ds,
    fun d hd hnot => inferLoop_error modelVars post ds d hd hnot⟩

/-- C8 witness: the completed-batch half of the amended statement evaluated at
a concrete model and request list. -/
theorem C8_infer_loop_witness :
    inferLoop ["Flu"] (fun _ => (1 : ℚ) / 2) ["Flu"] =
      Except.ok ((["Flu"] : List String).map fun d => (d, (1 : ℚ) / 2)) :=
  (C8_infer_loop ["Flu"] (fun _ => (1 : ℚ) / 2) ["Flu"]).1 (by decide)

/-- C9 counterexample: under a persistently failing store, `log_audit` does not
return normally for recursion budget 9 (nor for any other budget — see the
amended theorem): the mutual recursion between `_run` and `log_audit`
exhausts the recursion limit and raises instead of returning. -/
theorem C9_counterexample :
    (logAuditF 9 (fun _ => false) 0).1 = Res.exc ∧ Res.exc ≠ Res.ret := by
  exact ⟨by decide, by decide⟩

/-- C9 (amended): `log_audit` swallows a store failure whose recovery write
succeeds: whenever the write attempt after the current one succeeds (and the
recursion budget suffices), `log_audit` returns without raising and the
originating operation's result is exactly what it would be with a healthy
sink; but under a persistently failing sink the `_run`/`log_audit` mutual
recursion never returns normally, for every recursion budget. -/
theorem C9_log_audit :
    ∀ (store : ℕ → Bool) (fuel k : ℕ) (v : ℚ),
      (store (k + 1) = true → 4 ≤ fuel → (logAuditF fuel store k).1 = Res.ret)
      ∧ ((∀ n, store n = false) → (logAuditF fuel store k).1 = Res.exc)
      ∧ (store (k + 1) = true → 4 ≤ fuel → (opWithAudit fuel store k v).1 = some v) := by
  intro store fuel k v
  refine ⟨fun h1 h2 => logAuditF_recovery store fuel k h1 h2, ?_, ?_⟩
  · intro hall
    have hs : store = fun _ => false := funext hall
    rw [hs]
    exact auditMachine_persistent_fail fuel false k
  · intro h1 h2
    have hret := logAuditF_recovery store fuel k h1 h2
    unfold opWithAudit
    rcases hm : logAuditF fuel store k with ⟨r, n⟩
    rw [hm] at hret
    cases r
    · rfl
    · exact absurd hret (fun h => Res.noConfusion h)

/-- C9 witness: the amended statement evaluated for a store that fails only on
its first write attempt, with budget 9. -/
theorem C9_log_audit_witness :
    ((fun n => decide (n ≠ 0)) (0 + 1) = true) ∧ (4 : ℕ) ≤ 9 ∧
    (logAuditF 9 (fun n => decide (n ≠ 0)) 0).1 = Res.ret ∧
    (opWithAudit 9 (fun n => decide (n ≠ 0)) 0 (1 : ℚ)).1 = some 1 := by
  refine ⟨by decide, by decide, ?_, ?_⟩
  · exact (C9_log_audit (fun n => decide (n ≠ 0)) 9 0 1).1 (by decide) (by decide)
  · exact (C9_log_audit (fun n => decide (n ≠ 0)) 9 0 1).2.2 (by decide) (by decide)

/-- C10: `is_unusual` applied to the empty probability mapping returns true
(the universal condition holds vacuously), so a diagnosis attempt of
`bayes_utils.diagnose_patient` for which no disease probabilities are computed
at all — the match step returned no diseases, so the inference loop completes
with an empty result mapping — is flagged unusual and triggers the
special-case upsert and the `UNUSUAL_CASE` audit event. -/
theorem C10_empty_probs_unusual :
    ∀ (person : String) (syms : List String) (modelVars : List String) (post : String → ℚ),
      is_unusual ([] : List (String × ℚ)) = true
      ∧ ∃ effects,
          diagnose_patient_effects person syms modelVars post [] = Except.ok effects
          ∧ countUpserts effects = 1
          ∧ countAudit "UNUSUAL_CASE" effects = 1 := by
  intro person syms modelVars post
  exact ⟨rfl,
    [Eff.upsert syms none, Eff.audit "UPSERT_SPECIAL_CASE", Eff.audit "UNUSUAL_CASE"],
    rfl, rfl, rfl⟩

/-- C3 witness: the all-match characterization of the amended statement
evaluated on a concrete graph and a duplicate-free input. -/
theorem C3_match_modes_witness :
    (normList ["Fever"]).Nodup ∧
    ("Flu" ∈ diseases_by_symptoms [("Flu", ["Fever", "Cough"])] ["Fever"] none ↔
      normList ["Fever"] ≠ [] ∧
        ∃ syms, (("Flu", syms) ∈ [("Flu", ["Fever", "Cough"])]) ∧
          ∀ s ∈ normList ["Fever"], s ∈ syms) :=
  ⟨by decide, (C3_match_modes [("Flu", ["Fever", "Cough"])] ["Fever"] "Flu").1 (by decide)⟩
